import Mathlib

/-!
Shallow embedding of the SPI driver stack of `renode_peripheral_testing`:

* `src/stm32_spi.rs` — the transaction engine (`Stm32Spi1Device::transaction`),
  which brackets an operation list with chip-select low/high and performs one
  full-duplex byte exchange per buffer element (`transfer_byte`).
* `src/mock_spi.rs` — the command framing layer (`MockSpiDriver`): `echo`,
  `write_reg`, `read_reg` over the `embedded_hal::spi::SpiDevice` trait.

Bytes are `Nat` (values 0..255 in practice); buffers are `List Nat`.  The
remote peripheral behind the SPI wire is abstracted as a Mealy machine
(`Device`): one step consumes the transmitted byte and yields the received
byte, exactly the contract of `transfer_byte` (the busy-wait polling loops have
no observable effect besides blocking, so they are not modelled).  Mutation of
caller-owned buffers in Rust is modelled by returning the updated buffers.
The engine additionally returns a trace of `Event`s (chip-select transitions
and byte exchanges) so that the temporal chip-select claims are statable.
-/

namespace RenodeSpi

/-- A byte value; the source works with `u8`, modelled as `Nat`. -/
abbrev Byte := Nat

/-- The `embedded_hal::spi::Operation` variants used by the source
(`Write`, `Read`, `Transfer`, `TransferInPlace`, `DelayNs`).  Buffers that the
engine mutates are carried by value; the engine returns the updated list. -/
inductive Operation where
  | write (tx : List Byte)
  | read (buf : List Byte)
  | transfer (rx : List Byte) (tx : List Byte)
  | transferInPlace (buf : List Byte)
  | delayNs (ns : Nat)
deriving Repr, DecidableEq

/-- The `Command` enum of `mock_spi.rs`: `Echo = 1`, `WriteReg = 2`,
`ReadReg = 3`. -/
def Command.Echo : Byte := 1

/-- `Command::WriteReg as u8`. -/
def Command.WriteReg : Byte := 2

/-- `Command::ReadReg as u8`. -/
def Command.ReadReg : Byte := 3

/-- The remote SPI peripheral as a Mealy machine over state `σ`: `step s tx`
is the received byte and the next peripheral state.  This is the abstraction
of one `transfer_byte` call in `stm32_spi.rs` (write DR after TXE, read DR
after RXNE). -/
structure Device (σ : Type) where
  step : σ → Byte → Byte × σ

/-- Observable hardware events of the transaction engine: chip-select driven
low (`cs_low`, BSRR reset bit), chip-select driven high (`cs_high`, BSRR set
bit), and one full-duplex byte exchange (`transfer_byte`). -/
inductive Event where
  | csLow
  | csHigh
  | xchg (tx : Byte) (rx : Byte)
deriving Repr, DecidableEq

/-- True exactly on byte-exchange events. -/
def Event.isXchg : Event → Bool
  | .xchg _ _ => true
  | _ => false

/-- The `Stm32SpiError` type of `stm32_spi.rs` (kind `ErrorKind::Other`). -/
structure Stm32SpiError where
deriving Repr, DecidableEq

/-- The `Operation::Write` loop: for each byte perform the exchange and
discard the received byte. -/
def runWrite (d : Device σ) : σ → List Byte → σ × List Event
  | s, [] => (s, [])
  | s, b :: bs =>
      let p := d.step s b
      let q := runWrite d p.2 bs
      (q.1, Event.xchg b p.1 :: q.2)

/-- The `Operation::Read` loop: for each output slot exchange a `0x00` dummy
byte and store the received byte.  Only the slot count matters. -/
def runRead (d : Device σ) : σ → Nat → List Byte × σ × List Event
  | s, 0 => ([], s, [])
  | s, n + 1 =>
      let p := d.step s 0
      let q := runRead d p.2 n
      (p.1 :: q.1, q.2.1, Event.xchg 0 p.1 :: q.2.2)

/-- The `Operation::Transfer` loop: `rx.iter_mut().zip(tx.iter())` — exchange
pairwise up to the shorter buffer; surplus `rx` slots keep their old
contents. -/
def runTransfer (d : Device σ) : σ → List Byte → List Byte → List Byte × σ × List Event
  | s, rx, [] => (rx, s, [])
  | s, [], _ => ([], s, [])
  | s, _ :: rxs, t :: ts =>
      let p := d.step s t
      let q := runTransfer d p.2 rxs ts
      (p.1 :: q.1, q.2.1, Event.xchg t p.1 :: q.2.2)

/-- The `Operation::TransferInPlace` loop: each slot transmits its current
byte and is overwritten with the received byte.  Slot `i` is transmitted
before it is overwritten, so the transmitted sequence is the original
buffer. -/
def runInPlace (d : Device σ) : σ → List Byte → List Byte × σ × List Event
  | s, [] => ([], s, [])
  | s, b :: bs =>
      let p := d.step s b
      let q := runInPlace d p.2 bs
      (p.1 :: q.1, q.2.1, Event.xchg b p.1 :: q.2.2)

/-- One arm of the `match op` in `Stm32Spi1Device::transaction`: returns the
operation with its buffers updated, the new peripheral state, and the
exchange events.  `DelayNs` is a no-op. -/
def runOp (d : Device σ) (s : σ) : Operation → Operation × σ × List Event
  | .write tx =>
      let q := runWrite d s tx
      (.write tx, q.1, q.2)
  | .read buf =>
      let q := runRead d s buf.length
      (.read q.1, q.2.1, q.2.2)
  | .transfer rx tx =>
      let q := runTransfer d s rx tx
      (.transfer q.1 tx, q.2.1, q.2.2)
  | .transferInPlace buf =>
      let q := runInPlace d s buf
      (.transferInPlace q.1, q.2.1, q.2.2)
  | .delayNs ns => (.delayNs ns, s, [])

/-- The `for op in operations.iter_mut()` loop of `transaction`. -/
def runOps (d : Device σ) (s : σ) : List Operation → List Operation × σ × List Event
  | [] => ([], s, [])
  | op :: ops =>
      let p := runOp d s op
      let q := runOps d p.2.1 ops
      (p.1 :: q.1, q.2.1, p.2.2 ++ q.2.2)

/-- `Stm32Spi1Device::transaction`: drive chip-select low, run all operations
in order, drive chip-select high, return `Ok(())`.  The trace records the
chip-select transitions around the exchanges. -/
def transaction (d : Device σ) (s : σ) (ops : List Operation) :
    Except Stm32SpiError (List Operation × σ × List Event) :=
  let q := runOps d s ops
  .ok (q.1, q.2.1, Event.csLow :: q.2.2 ++ [Event.csHigh])

/-- The `embedded_hal::spi::SpiDevice` trait boundary as `MockSpiDriver`
uses it: a transaction function over transport state `σ` with error type
`ε`, returning the operation list with buffers updated. -/
structure SpiBus (σ : Type) (ε : Type) where
  transaction : σ → List Operation → Except ε (List Operation × σ)

/-- Extracts the mutated buffer of a single-`TransferInPlace` transaction;
for an implementation that mauled the operation list (impossible for the
engines modelled here) the caller-owned buffer is simply left as it was. -/
def inPlaceResult (ops : List Operation) (orig : List Byte) : List Byte :=
  match ops with
  | [.transferInPlace buf] => buf
  | _ => orig

/-- Extracts the mutated `rx` buffer of a single-`Transfer` transaction, with
the same fallback convention as `inPlaceResult`. -/
def transferResult (ops : List Operation) (orig : List Byte) : List Byte :=
  match ops with
  | [.transfer rx _] => rx
  | _ => orig

/-- The provided trait method `SpiDevice::transfer_in_place`: a transaction of
one `TransferInPlace` operation. -/
def SpiBus.transfer_in_place (spi : SpiBus σ ε) (s : σ) (buf : List Byte) :
    Except ε (List Byte × σ) :=
  match spi.transaction s [.transferInPlace buf] with
  | .error e => .error e
  | .ok (ops, s1) => .ok (inPlaceResult ops buf, s1)

/-- The `Error` enum of `mock_spi.rs` (single variant `Spi`). -/
inductive Error where
  | Spi
deriving Repr, DecidableEq

/-- `dst[i..i+src.length].copy_from_slice(src)` on lists (used only where the
source guarantees `i + src.length ≤ dst.length`). -/
def listCopy (dst : List Byte) (i : Nat) (src : List Byte) : List Byte :=
  dst.take i ++ src ++ dst.drop (i + src.length)

/-- `MockSpiDriver::echo`.  Returns `none` where the Rust code would panic on
a slice-bounds failure (`&mut wire[..len + 2]` with `len + 2 > 257`, or
`wire[1..=len]` with `len > 256`); otherwise `some (buf, r)` where `buf` is
the caller's buffer after the call (Rust mutates it in place) and `r` is the
`Result` together with the transport state.  For `len + 2 ≤ 257` both slice
operations are in bounds, so the single guard captures panic-freedom. -/
def echo (spi : SpiBus σ ε) (s : σ) (buf : List Byte) :
    Option (List Byte × Except Error σ) :=
  if buf.length = 0 then
    some (buf, .ok s)
  else
    let len := buf.length
    if len + 2 ≤ 257 then
      let wire := listCopy ((List.replicate 257 0).set 0 Command.Echo) 1 buf
      match spi.transfer_in_place s (wire.take (len + 2)) with
      | .error _ => some (buf, .error Error.Spi)
      | .ok (frame, s1) => some ((frame.drop 2).take len, .ok s1)
    else
      none

/-- `MockSpiDriver::write_reg`: one `Write` operation carrying the 3-byte
frame `[Command::WriteReg, addr, value]`; on success only the transport state
comes back. -/
def write_reg (spi : SpiBus σ ε) (s : σ) (addr : Byte) (value : Byte) :
    Except Error σ :=
  match spi.transaction s [.write [Command.WriteReg, addr, value]] with
  | .error _ => .error Error.Spi
  | .ok (_, s1) => .ok s1

/-- `MockSpiDriver::read_reg`: one `Transfer` operation transmitting
`[Command::ReadReg, addr, 0x00]` into a zeroed 3-byte `rx` buffer; on success
returns `rx[0]`. -/
def read_reg (spi : SpiBus σ ε) (s : σ) (addr : Byte) :
    Except Error (Byte × σ) :=
  match spi.transaction s [.transfer [0, 0, 0] [Command.ReadReg, addr, 0]] with
  | .error _ => .error Error.Spi
  | .ok (ops, s1) => .ok ((transferResult ops [0, 0, 0]).getD 0 0, s1)

/-- The stm32 engine packaged as an `SpiBus` over a peripheral `d`; the
transport state is the peripheral state paired with the accumulated event
log, so driver-level claims can speak about hardware activity. -/
def stm32Bus (d : Device σ) : SpiBus (σ × List Event) Stm32SpiError :=
  ⟨fun p ops =>
    match transaction d p.1 ops with
    | .error e => .error e
    | .ok (ops1, s1, evs) => .ok (ops1, (s1, p.2 ++ evs))⟩

/-- Modelled from the spec: the remote Renode mock peripheral's Echo
behaviour, which is not under `src/` (it lives in the C# simulation).  Per the
spec, the peripheral "needs one byte-time to decode the command code before it
begins echoing, plus one pipeline byte of additional delay", so the response
stream carries the echoed payload starting at receive slot 2: the byte
received at slot `n` (for `n ≥ 2`) is the byte that was transmitted at slot
`n - 1`, and the first two receive slots hold filler.  State: (number of bytes
received so far, most recently received byte), reset at chip-select. -/
def echoDevice : Device (Nat × Byte) :=
  ⟨fun st tx => (if 2 ≤ st.1 then st.2 else 0, (st.1 + 1, tx))⟩

/-- The freshly-reset state of `echoDevice` (start of a transaction). -/
def echoDeviceInit : Nat × Byte := (0, 0)

/-- Modelled from the spec: one operation as seen by the remote register-file
peripheral (C# side, not under `src/`).  A `WriteReg` frame
`[WriteReg, addr, v]` stores `v` at `addr`; a `ReadReg` frame
`[ReadReg, addr, 0]` answers with the register value in receive slot 0 (the
zero-byte offset the spec singles out). -/
def regStep (regs : Byte → Byte) : Operation → Operation × (Byte → Byte)
  | .write [c, addr, v] =>
      (.write [c, addr, v],
       if c = Command.WriteReg then Function.update regs addr v else regs)
  | .transfer rx [c, addr, f] =>
      (if c = Command.ReadReg then .transfer (regs addr :: rx.drop 1) [c, addr, f]
        else .transfer rx [c, addr, f], regs)
  | op => (op, regs)

/-- Modelled from the spec: the register-file peripheral run over an
operation list, threading the register state. -/
def regRun : (Byte → Byte) → List Operation → List Operation × (Byte → Byte)
  | regs, [] => ([], regs)
  | regs, op :: ops =>
      let p := regStep regs op
      let q := regRun p.2 ops
      (p.1 :: q.1, q.2)

/-- Modelled from the spec: the register-file peripheral packaged as an
`SpiBus`; it never fails. -/
def regBus : SpiBus (Byte → Byte) Empty :=
  ⟨fun regs ops => .ok (regRun regs ops)⟩

/-- An always-failing transport, for exercising the error paths of the
framing layer. -/
def failBus : SpiBus Unit Unit :=
  ⟨fun _ _ => .error ()⟩

/-! ### Helper lemmas about the engine's event traces -/

theorem runWrite_events (d : Device σ) :
    ∀ (s : σ) (tx : List Byte) (e : Event), e ∈ (runWrite d s tx).2 →
      e.isXchg = true := by
  intro s tx
  induction tx generalizing s with
  | nil => intro e h; simp [runWrite] at h
  | cons b bs ih =>
      intro e h
      simp only [runWrite, List.mem_cons] at h
      rcases h with h | h
      · simp [h, Event.isXchg]
      · exact ih _ e h

theorem runRead_events (d : Device σ) :
    ∀ (n : Nat) (s : σ) (e : Event), e ∈ (runRead d s n).2.2 →
      e.isXchg = true := by
  intro n
  induction n with
  | zero => intro s e h; simp [runRead] at h
  | succ n ih =>
      intro s e h
      simp only [runRead, List.mem_cons] at h
      rcases h with h | h
      · simp [h, Event.isXchg]
      · exact ih _ e h

theorem runTransfer_events (d : Device σ) :
    ∀ (tx : List Byte) (rx : List Byte) (s : σ) (e : Event),
      e ∈ (runTransfer d s rx tx).2.2 → e.isXchg = true := by
  intro tx
  induction tx with
  | nil => intro rx s e h; simp [runTransfer] at h
  | cons t ts ih =>
      intro rx s e h
      cases rx with
      | nil => simp [runTransfer] at h
      | cons r rxs =>
          simp only [runTransfer, List.mem_cons] at h
          rcases h with h | h
          · simp [h, Event.isXchg]
          · exact ih rxs _ e h

theorem runInPlace_events (d : Device σ) :
    ∀ (l : List Byte) (s : σ) (e : Event), e ∈ (runInPlace d s l).2.2 →
      e.isXchg = true := by
  intro l
  induction l with
  | nil => intro s e h; simp [runInPlace] at h
  | cons b bs ih =>
      intro s e h
      simp only [runInPlace, List.mem_cons] at h
      rcases h with h | h
      · simp [h, Event.isXchg]
      · exact ih _ e h

theorem runOp_events (d : Device σ) (s : σ) (op : Operation) :
    ∀ e ∈ (runOp d s op).2.2, e.isXchg = true := by
  intro e h
  cases op with
  | write tx => exact runWrite_events d s tx e h
  | read buf => exact runRead_events d buf.length s e h
  | transfer rx tx => exact runTransfer_events d tx rx s e h
  | transferInPlace buf => exact runInPlace_events d buf s e h
  | delayNs ns => simp [runOp] at h

theorem runOps_events (d : Device σ) :
    ∀ (ops : List Operation) (s : σ) (e : Event),
      e ∈ (runOps d s ops).2.2 → e.isXchg = true := by
  intro ops
  induction ops with
  | nil => intro s e h; simp [runOps] at h
  | cons op rest ih =>
      intro s e h
      simp only [runOps, List.mem_append] at h
      rcases h with h | h
      · exact runOp_events d s op e h
      · exact ih _ e h

/-! ### Claims about the transaction engine -/

/-- C8: the transaction engine always returns success — on every operation
list and every peripheral behaviour, `transaction` yields `Ok`; the declared
`Stm32SpiError` is unreachable because `transfer_byte` can only block, never
fail. -/
theorem transaction_never_fails (d : Device σ) (s : σ) (ops : List Operation) :
    (transaction d s ops).isOk = true := rfl

/-- C4: every execution of `transaction` produces a trace that starts by
driving chip-select low, ends by driving it high, and contains nothing but
byte-exchange events in between — so chip-select is asserted before the first
exchange, every exchange happens while it is asserted, and it is deasserted
only after the last exchange. -/
theorem transaction_cs_bracketing (d : Device σ) (s : σ) (ops : List Operation) :
    ∃ ops1 s1 evs,
      transaction d s ops = .ok (ops1, s1, Event.csLow :: evs ++ [Event.csHigh]) ∧
      ∀ e ∈ evs, e.isXchg = true := by
  refine ⟨(runOps d s ops).1, (runOps d s ops).2.1, (runOps d s ops).2.2, rfl, ?_⟩
  intro e h
  exact runOps_events d ops s e h

/-- C5: an `Exchange` (`Transfer`) whose tx buffer holds a byte sequence and
an `ExchangeInPlace` (`TransferInPlace`) whose buffer initially holds the
same sequence produce byte-identical received buffers, reach the same
peripheral state, and generate the same event trace, for every peripheral
behaviour (rx buffer of matching length). -/
theorem transfer_inplace_equiv (d : Device σ) (s : σ) (rx tx : List Byte)
    (h : rx.length = tx.length) :
    ∃ out s1 evs,
      transaction d s [.transfer rx tx] = .ok ([.transfer out tx], s1, evs) ∧
      transaction d s [.transferInPlace tx] = .ok ([.transferInPlace out], s1, evs) := by
  have key : ∀ (txl : List Byte) (rxl : List Byte) (s0 : σ),
      rxl.length = txl.length → runTransfer d s0 rxl txl = runInPlace d s0 txl := by
    intro txl
    induction txl with
    | nil =>
        intro rxl s0 hlen
        cases rxl with
        | nil => simp [runTransfer, runInPlace]
        | cons r rs => simp at hlen
    | cons t ts ih =>
        intro rxl s0 hlen
        cases rxl with
        | nil => simp at hlen
        | cons r rs =>
            simp only [runTransfer, runInPlace]
            rw [ih rs _ (by simpa using hlen)]
  refine ⟨(runInPlace d s tx).1, (runInPlace d s tx).2.1,
    Event.csLow :: ((runInPlace d s tx).2.2 ++ []) ++ [Event.csHigh], ?_, ?_⟩
  · simp only [transaction, runOps, runOp, key tx rx s h]
  · simp only [transaction, runOps, runOp]

/-! ### Helper lemmas about echo -/

theorem echo_wire_eq (buf : List Byte) (h2 : buf.length ≤ 255) :
    (listCopy ((List.replicate 257 0).set 0 Command.Echo) 1 buf).take (buf.length + 2) =
      Command.Echo :: (buf ++ [0]) := by
  have hset : (List.replicate 257 (0 : Byte)).set 0 Command.Echo =
      Command.Echo :: List.replicate 256 0 := rfl
  rw [listCopy, hset]
  have hdrop : (Command.Echo :: List.replicate 256 (0 : Byte)).drop (1 + buf.length) =
      List.replicate (256 - buf.length) 0 := by
    rw [Nat.add_comm, List.drop_succ_cons, List.drop_replicate]
  have htake : (Command.Echo :: List.replicate 256 (0 : Byte)).take 1 = [Command.Echo] := rfl
  rw [htake, hdrop]
  simp only [List.singleton_append]
  show List.take (buf.length + 1 + 1)
    (Command.Echo :: (buf ++ List.replicate (256 - buf.length) 0)) = _
  rw [List.take_succ_cons, List.take_append_eq_append_take,
    List.take_of_length_le (by omega), List.take_replicate]
  have hm : min (buf.length + 1 - buf.length) (256 - buf.length) = 1 := by omega
  rw [hm]
  simp

theorem echo_eq (spi : SpiBus σ ε) (s : σ) (buf : List Byte)
    (h1 : 1 ≤ buf.length) (h2 : buf.length ≤ 255) :
    echo spi s buf =
      match spi.transfer_in_place s (Command.Echo :: (buf ++ [0])) with
      | .error _ => some (buf, .error Error.Spi)
      | .ok (frame, s1) => some ((frame.drop 2).take buf.length, .ok s1) := by
  rw [echo]
  simp only [if_neg (show ¬ buf.length = 0 by omega),
    if_pos (show buf.length + 2 ≤ 257 by omega)]
  rw [echo_wire_eq buf h2]

theorem runInPlace_echoDevice (l : List Byte) :
    ∀ (n : Nat) (last : Byte), 2 ≤ n →
      (runInPlace echoDevice (n, last) l).1 = (last :: l).dropLast := by
  induction l with
  | nil => intro n last h; simp [runInPlace]
  | cons b bs ih =>
      intro n last h
      have hstep : echoDevice.step (n, last) b = (last, (n + 1, b)) := by
        simp [echoDevice, h]
      simp only [runInPlace, hstep]
      rw [ih (n + 1) b (by omega)]
      exact rfl

theorem runInPlace_echoDevice_frame (b : Byte) (bs : List Byte) :
    (runInPlace echoDevice echoDeviceInit (Command.Echo :: ((b :: bs) ++ [0]))).1 =
      0 :: 0 :: b :: bs := by
  have h0 : echoDevice.step echoDeviceInit Command.Echo = (0, (1, Command.Echo)) := by
    simp [echoDevice, echoDeviceInit]
  have h1 : echoDevice.step (1, Command.Echo) b = (0, (2, b)) := by
    simp [echoDevice]
  rw [show (Command.Echo :: ((b :: bs) ++ [0])) = Command.Echo :: b :: (bs ++ [0]) by simp]
  simp only [runInPlace, h0, h1]
  rw [runInPlace_echoDevice (bs ++ [0]) 2 b (by omega)]
  rw [show (b :: (bs ++ [0])) = ((b :: bs) ++ [0]) from rfl, List.dropLast_concat]

theorem echo_frame_extract (b : Byte) (bs : List Byte) :
    (((0 : Byte) :: 0 :: b :: bs).drop 2).take (b :: bs).length = b :: bs := by
  show (b :: bs).take (b :: bs).length = b :: bs
  exact List.take_length (b :: bs)

/-! ### Claims about the framing layer's echo -/

/-- C1: for `1 ≤ L ≤ 255`, `echo` submits exactly the `(L+2)`-byte frame
`[Echo, payload..., 0x00]` as a single `TransferInPlace` transaction and, on
success, hands back the received wire bytes at offsets `2..L+2`; on transport
failure it reports `Error.Spi` with the caller's buffer untouched.  For
`L = 0` it succeeds immediately with the transport state unchanged (no
hardware operation). -/
theorem echo_frame_correct (spi : SpiBus σ ε) (s : σ) (buf : List Byte)
    (h2 : buf.length ≤ 255) :
    (buf.length = 0 → echo spi s buf = some (buf, .ok s)) ∧
    (1 ≤ buf.length →
      echo spi s buf =
        match spi.transaction s [.transferInPlace (Command.Echo :: (buf ++ [0]))] with
        | .error _ => some (buf, .error Error.Spi)
        | .ok (ops, s1) =>
            some (((inPlaceResult ops (Command.Echo :: (buf ++ [0]))).drop 2).take buf.length,
              .ok s1)) := by
  constructor
  · intro h0
    rw [echo]
    simp [h0]
  · intro h1
    rw [echo_eq spi s buf h1 h2, SpiBus.transfer_in_place]
    rcases htr : spi.transaction s [.transferInPlace (Command.Echo :: (buf ++ [0]))] with e | p
    · rfl
    · rfl

/-- C2: against the stm32 engine driving the spec-modelled echo peripheral
(payload echoed back starting at receive slot 2), `echo` succeeds and returns
the caller's buffer with its contents unchanged, for every payload of length
1..255 — the round-trip identity. -/
theorem echo_roundtrip (buf : List Byte) (log : List Event)
    (h1 : 1 ≤ buf.length) (h2 : buf.length ≤ 255) :
    ∃ st, echo (stm32Bus echoDevice) (echoDeviceInit, log) buf =
      some (buf, .ok st) := by
  cases buf with
  | nil => simp at h1
  | cons b bs =>
      rw [echo_eq _ _ _ h1 h2]
      simp only [SpiBus.transfer_in_place, stm32Bus, transaction, runOps, runOp,
        inPlaceResult, runInPlace_echoDevice_frame, echo_frame_extract]
      exact ⟨_, rfl⟩

/-- C9: `echo` performs no out-of-bounds access on its fixed 257-byte scratch
buffer for any caller buffer of length at most 255 — the result is `some`,
i.e. none of the slice operations panics, for every transport. -/
theorem echo_no_overflow (spi : SpiBus σ ε) (s : σ) (buf : List Byte)
    (h : buf.length ≤ 255) : (echo spi s buf).isSome = true := by
  by_cases h0 : buf.length = 0
  · rw [echo]
    simp [h0]
  · rw [echo_eq spi s buf (by omega) h]
    rcases spi.transfer_in_place s (Command.Echo :: (buf ++ [0])) with e | ⟨frame, s1⟩
    · rfl
    · rfl

/-- C10: if the transport's `transfer_in_place` transaction fails, `echo`
returns `Error.Spi` and the caller's buffer is handed back exactly unchanged —
no partial result is written, for every payload of length 1..255. -/
theorem echo_error_atomic (spi : SpiBus σ ε) (s : σ) (buf : List Byte) (e : ε)
    (h1 : 1 ≤ buf.length) (h2 : buf.length ≤ 255)
    (hf : spi.transaction s [.transferInPlace (Command.Echo :: (buf ++ [0]))] =
      .error e) :
    echo spi s buf = some (buf, .error Error.Spi) := by
  rw [echo_eq spi s buf h1 h2, SpiBus.transfer_in_place, hf]

/-! ### Claims about the register commands -/

/-- C3: `read_reg` drives exactly the 3-byte frame `[ReadReg, addr, 0x00]`
through the engine as one `Transfer` transaction — the peripheral sees
precisely those three bytes inside one chip-select bracket — and the value
returned is the peripheral's response to the very first byte (receive slot 0,
the zero-byte offset), for every peripheral behaviour. -/
theorem read_reg_wire (d : Device σ) (s : σ) (log : List Event) (addr : Byte) :
    read_reg (stm32Bus d) (s, log) addr =
      .ok ((d.step s Command.ReadReg).1,
        ((d.step ((d.step ((d.step s Command.ReadReg).2) addr).2) 0).2,
         log ++ [Event.csLow,
           Event.xchg Command.ReadReg (d.step s Command.ReadReg).1,
           Event.xchg addr (d.step ((d.step s Command.ReadReg).2) addr).1,
           Event.xchg 0 (d.step ((d.step ((d.step s Command.ReadReg).2) addr).2) 0).1,
           Event.csHigh])) := by
  simp [read_reg, stm32Bus, transaction, runOps, runOp, runTransfer, transferResult]

/-- C7: `write_reg` drives exactly the 3-byte frame `[WriteReg, addr, value]`
through the engine as one `Write` transaction; the three bytes the peripheral
returns appear only in the hardware trace and are discarded — the call's
result carries nothing but the new transport state. -/
theorem write_reg_wire (d : Device σ) (s : σ) (log : List Event) (addr v : Byte) :
    write_reg (stm32Bus d) (s, log) addr v =
      .ok ((d.step ((d.step ((d.step s Command.WriteReg).2) addr).2) v).2,
        log ++ [Event.csLow,
          Event.xchg Command.WriteReg (d.step s Command.WriteReg).1,
          Event.xchg addr (d.step ((d.step s Command.WriteReg).2) addr).1,
          Event.xchg v (d.step ((d.step ((d.step s Command.WriteReg).2) addr).2) v).1,
          Event.csHigh]) := by
  simp [write_reg, stm32Bus, transaction, runOps, runOp, runWrite]

/-- C6: against the spec-modelled remote register file, `write_reg addr v`
followed immediately by `read_reg addr` returns `Ok v`, for all byte values
`addr` and `v` and every prior register state. -/
theorem write_read_roundtrip (regs : Byte → Byte) (addr v : Byte) :
    ∃ regs1, write_reg regBus regs addr v = .ok regs1 ∧
      read_reg regBus regs1 addr = .ok (v, regs1) := by
  refine ⟨Function.update regs addr v, ?_, ?_⟩
  · simp [write_reg, regBus, regRun, regStep]
  · simp [read_reg, regBus, regRun, regStep, transferResult]

/-! ### Witnesses -/

/-- Witness for C1 at the 3-byte payload `[0x11, 0x22, 0x33]` over the stm32
engine with the echo peripheral. -/
theorem echo_frame_correct_witness :
    ([17, 34, 51] : List Byte).length ≤ 255 ∧
    ((([17, 34, 51] : List Byte).length = 0 →
        echo (stm32Bus echoDevice) (echoDeviceInit, []) [17, 34, 51] =
          some ([17, 34, 51], .ok (echoDeviceInit, []))) ∧
      (1 ≤ ([17, 34, 51] : List Byte).length →
        echo (stm32Bus echoDevice) (echoDeviceInit, []) [17, 34, 51] =
          match (stm32Bus echoDevice).transaction (echoDeviceInit, [])
              [.transferInPlace (Command.Echo :: ([17, 34, 51] ++ [0]))] with
          | .error _ => some ([17, 34, 51], .error Error.Spi)
          | .ok (ops, s1) =>
              some (((inPlaceResult ops
                (Command.Echo :: ([17, 34, 51] ++ [0]))).drop 2).take
                  ([17, 34, 51] : List Byte).length, .ok s1))) :=
  ⟨by decide,
    echo_frame_correct (stm32Bus echoDevice) (echoDeviceInit, []) [17, 34, 51]
      (by decide)⟩

/-- Witness for C2: the spec scenario `echo([0x11, 0x22, 0x33])` returns the
buffer `[0x11, 0x22, 0x33]`. -/
theorem echo_roundtrip_witness :
    1 ≤ ([17, 34, 51] : List Byte).length ∧
    ([17, 34, 51] : List Byte).length ≤ 255 ∧
    ∃ st, echo (stm32Bus echoDevice) (echoDeviceInit, []) [17, 34, 51] =
      some ([17, 34, 51], .ok st) :=
  ⟨by decide, by decide, echo_roundtrip [17, 34, 51] [] (by decide) (by decide)⟩

/-- Witness for C5 at tx bytes `[7, 9]` against the echo peripheral. -/
theorem transfer_inplace_equiv_witness :
    ([0, 0] : List Byte).length = ([7, 9] : List Byte).length ∧
    ∃ out s1 evs,
      transaction echoDevice echoDeviceInit [.transfer [0, 0] [7, 9]] =
        .ok ([.transfer out [7, 9]], s1, evs) ∧
      transaction echoDevice echoDeviceInit [.transferInPlace [7, 9]] =
        .ok ([.transferInPlace out], s1, evs) :=
  ⟨by decide,
    transfer_inplace_equiv echoDevice echoDeviceInit [0, 0] [7, 9] (by decide)⟩

set_option maxRecDepth 4000 in
/-- Witness for C9: the boundary scenario — a 255-byte payload stays in
bounds. -/
theorem echo_no_overflow_witness :
    (List.replicate 255 (7 : Byte)).length ≤ 255 ∧
    (echo (stm32Bus echoDevice) (echoDeviceInit, [])
      (List.replicate 255 7)).isSome = true :=
  ⟨by decide,
    echo_no_overflow (stm32Bus echoDevice) (echoDeviceInit, [])
      (List.replicate 255 7) (by decide)⟩

/-- Witness for C10: an always-failing transport makes `echo` report
`Error.Spi` and hand the 3-byte payload back unchanged. -/
theorem echo_error_atomic_witness :
    1 ≤ ([17, 34, 51] : List Byte).length ∧
    ([17, 34, 51] : List Byte).length ≤ 255 ∧
    failBus.transaction () [.transferInPlace (Command.Echo :: ([17, 34, 51] ++ [0]))] =
      .error () ∧
    echo failBus () [17, 34, 51] = some ([17, 34, 51], .error Error.Spi) :=
  ⟨by decide, by decide, rfl,
    echo_error_atomic failBus () [17, 34, 51] () (by decide) (by decide) rfl⟩

end RenodeSpi
